import Mathlib

/-!
Verification of the VideoCutter segment-planning and transcode-orchestration
engine (`video_cutter.py`).  The Python code is shallowly embedded: pure
helpers (`parse_timestamp`, `_parse_scale_settings`, `_create_safe_filename`)
become Lean functions, Python exceptions become `Except`, and the effectful
`cut_video` is modelled with an explicit `World` (filesystem contents,
writability, per-command transcoder outcome) threaded through the segment
loop, which also returns the trace of executed transcoder commands.
-/

deriving instance DecidableEq for Except

/-- Python exceptions raised by the engine: `ValueError msg` and
`PermissionError msg`. -/
inductive PyExn where
  | valueError (msg : String)
  | permissionError (msg : String)
deriving DecidableEq

/-- Model of Python whitespace for `str.strip()` / `int()` (ASCII subset:
space, tab, newline, carriage return, vertical tab, form feed). -/
def isPyWs (c : Char) : Bool :=
  c = ' ' || c = '\t' || c = '\n' || c = '\r' || c = '\x0b' || c = '\x0c'

/-- Strip leading and trailing whitespace from a character list
(model of Python `str.strip()`). -/
def stripL (l : List Char) : List Char :=
  ((l.dropWhile isPyWs).reverse.dropWhile isPyWs).reverse

/-- Model of Python `str.strip()`. -/
def pyStrip (s : String) : String := ⟨stripL s.data⟩

/-- Model of Python `str.lower()` (ASCII letters). -/
def pyLowerCh (c : Char) : Char :=
  if 'A' ≤ c ∧ c ≤ 'Z' then Char.ofNat (c.toNat + 32) else c

/-- Model of Python `str.lower()`. -/
def pyLower (s : String) : String := ⟨s.data.map pyLowerCh⟩

/-- Model of Python `str.split(sep)` for a one-character separator:
splits on every occurrence, keeping empty pieces (`"".split(c) == [""]`). -/
def pySplitCh (c : Char) : List Char → List (List Char)
  | [] => [[]]
  | x :: xs =>
    match pySplitCh c xs with
    | [] => [[]]
    | h :: t => if x = c then [] :: h :: t else (x :: h) :: t

/-- The decimal digit character for `d < 10`. -/
def digitChar (d : Nat) : Char := Char.ofNat (48 + d)

/-- Decimal digits of `n` (most significant first), by fuel-bounded division;
`fuel ≥ n` suffices.  Returns `[]` for `n = 0`. -/
def natDigitsAux : Nat → Nat → List Char
  | 0, _ => []
  | fuel + 1, n =>
    if n = 0 then [] else natDigitsAux fuel (n / 10) ++ [digitChar (n % 10)]

/-- Decimal digits of a natural number, model of Python `str(n)` for `n ≥ 0`. -/
def natDigits (n : Nat) : List Char :=
  if n = 0 then ['0'] else natDigitsAux n n

/-- Model of Python `str(n)` on a natural number. -/
def natRepr (n : Nat) : String := ⟨natDigits n⟩

/-- Model of Python `str(i)` on an integer. -/
def intRepr (i : Int) : String :=
  if i < 0 then "-" ++ natRepr i.natAbs else natRepr i.natAbs

/-- Numeric value of a list of decimal digit characters. -/
def digitsVal (l : List Char) : Nat :=
  l.foldl (fun a c => 10 * a + (c.toNat - 48)) 0

/-- ASCII decimal digit test (code points 48-57). -/
def isDigitCh (c : Char) : Bool := 48 ≤ c.toNat && c.toNat ≤ 57

/-- Model of Python `int(s)` on a string: strips whitespace, accepts an
optional single sign followed by one or more ASCII decimal digits, and
returns `none` (a `ValueError`) otherwise. -/
def pyIntL (l : List Char) : Option Int :=
  match stripL l with
  | [] => none
  | c :: ds =>
      if c = '-' then
        if ds ≠ [] ∧ ds.all isDigitCh then some (-(digitsVal ds : Int)) else none
      else if c = '+' then
        if ds ≠ [] ∧ ds.all isDigitCh then some (digitsVal ds : Int) else none
      else
        if (c :: ds).all isDigitCh then some (digitsVal (c :: ds) : Int) else none

/-- Model of the Python format spec `f"{i:02d}"`: decimal rendering of `i`
zero-padded on the left to a minimum width of two characters (the sign
counts toward the width). -/
def format02 (i : Int) : String :=
  if i < 0 then "-" ++ natRepr i.natAbs
  else if (natDigits i.toNat).length < 2 then ⟨'0' :: natDigits i.toNat⟩
  else ⟨natDigits i.toNat⟩

/-- `VideoCutter.parse_timestamp` (video_cutter.py:22-53): strips the input,
splits on `:`, and renders 1 / 2 / 3 integer fields as
`00:00:{s:02d}` / `00:{m:02d}:{s:02d}` / `{h:02d}:{m:02d}:{s:02d}`,
raising `ValueError` on any other field count or non-integer field. -/
def parse_timestamp (timestamp : String) : Except PyExn String :=
  let t := pyStrip timestamp
  match pySplitCh ':' t.data with
  | [p] =>
      match pyIntL p with
      | some seconds => .ok ("00:00:" ++ format02 seconds)
      | none => .error (.valueError ("Invalid timestamp format: " ++ t))
  | [p1, p2] =>
      match pyIntL p1, pyIntL p2 with
      | some minutes, some seconds =>
          .ok ("00:" ++ format02 minutes ++ ":" ++ format02 seconds)
      | _, _ => .error (.valueError ("Invalid timestamp format: " ++ t))
  | [p1, p2, p3] =>
      match pyIntL p1, pyIntL p2, pyIntL p3 with
      | some hours, some minutes, some seconds =>
          .ok (format02 hours ++ ":" ++ format02 minutes ++ ":" ++ format02 seconds)
      | _, _, _ => .error (.valueError ("Invalid timestamp format: " ++ t))
  | _ => .error (.valueError ("Invalid timestamp format: " ++ t))

example : parse_timestamp "90" = .ok "00:00:90" := by decide
example : parse_timestamp "1:30" = .ok "00:01:30" := by decide
example : parse_timestamp "01:30:00" = .ok "01:30:00" := by decide
example : parse_timestamp "-5" = .ok "00:00:-5" := by decide
example : parse_timestamp "abc" = .error (.valueError "Invalid timestamp format: abc") := by decide
example : parse_timestamp "1:2:3:4" = .error (.valueError "Invalid timestamp format: 1:2:3:4") := by decide
example : parse_timestamp " 100 " = .ok "00:00:100" := by decide

/-- `VideoCutter._parse_scale_settings` (video_cutter.py:55-83): lowercases
and strips the selector; the four presets return fixed FFmpeg argument
lists; otherwise a selector containing `:` is split and its first two
fields parsed as integers (bitrate = third field, defaulting to `1M`),
producing `-vf scale=w:h -b:v BR -b:a 128k`; everything else raises
`ValueError`. -/
def parse_scale_settings (scale : String) : Except PyExn (List String) :=
  let s := pyStrip (pyLower scale)
  if s = "720p" then .ok ["-vf", "scale=1280:720", "-b:v", "2M", "-b:a", "128k"]
  else if s = "480p" then .ok ["-vf", "scale=854:480", "-b:v", "1M", "-b:a", "96k"]
  else if s = "360p" then .ok ["-vf", "scale=640:360", "-b:v", "500k", "-b:a", "64k"]
  else if s = "240p" then .ok ["-vf", "scale=426:240", "-b:v", "250k", "-b:a", "64k"]
  else if s.data.contains ':' then
    match pySplitCh ':' s.data with
    | p0 :: p1 :: rest =>
        match pyIntL p0, pyIntL p1 with
        | some width, some height =>
            let bitrate : String := match rest with
              | r :: _ => ⟨r⟩
              | [] => "1M"
            .ok ["-vf", "scale=" ++ intRepr width ++ ":" ++ intRepr height,
                 "-b:v", bitrate, "-b:a", "128k"]
        | _, _ => .error (.valueError ("Invalid custom scale format: " ++ s))
    | _ =>
        .error (.valueError ("Invalid scale setting: " ++ s ++
          ". Use presets (720p, 480p, 360p, 240p) or custom format (width:height:bitrate)"))
  else
    .error (.valueError ("Invalid scale setting: " ++ s ++
      ". Use presets (720p, 480p, 360p, 240p) or custom format (width:height:bitrate)"))

example : parse_scale_settings "720p" = .ok ["-vf", "scale=1280:720", "-b:v", "2M", "-b:a", "128k"] := by decide
example : parse_scale_settings "480p" = .ok ["-vf", "scale=854:480", "-b:v", "1M", "-b:a", "96k"] := by decide
example : parse_scale_settings "1280:720:1.5M" = .ok ["-vf", "scale=1280:720", "-b:v", "1.5m", "-b:a", "128k"] := by decide
example : parse_scale_settings "0:0" = .ok ["-vf", "scale=0:0", "-b:v", "1M", "-b:a", "128k"] := by decide
example : parse_scale_settings "-1:720" = .ok ["-vf", "scale=-1:720", "-b:v", "1M", "-b:a", "128k"] := by decide
example : (parse_scale_settings "bogus").isOk = false := by decide

/-- Last index of `c` in `l`, or `-1` when absent (model of Python
`str.rfind`). -/
def lastIndexOf (l : List Char) (c : Char) : Int :=
  match l.reverse.findIdx? (· = c) with
  | some j => (l.length : Int) - 1 - (j : Int)
  | none => -1

/-- Model of Python `os.path.splitext` (posix rules, separator `/`,
extension separator `.`): splits at the last dot after the last slash,
except that a basename consisting only of leading dots up to that dot has
no extension. -/
def splitext (p : String) : String × String :=
  let cs := p.data
  let sepIndex := lastIndexOf cs '/'
  let dotIndex := lastIndexOf cs '.'
  if sepIndex < dotIndex then
    let start := (sepIndex + 1).toNat
    let dotN := dotIndex.toNat
    if ((cs.drop start).take (dotN - start)).any (· ≠ '.') then
      (⟨cs.take dotN⟩, ⟨cs.drop dotN⟩)
    else (p, "")
  else (p, "")

example : splitext "out.mp4" = ("out", ".mp4") := by decide
example : splitext "dir/out.mp4" = ("dir/out", ".mp4") := by decide
example : splitext ".bashrc" = (".bashrc", "") := by decide
example : splitext "noext" = ("noext", "") := by decide

/-- The numbered filename `{stem}_{n}{ext}` tried by
`_create_safe_filename`. -/
def mkNumbered (stem ext : String) (n : Nat) : String :=
  stem ++ "_" ++ natRepr n ++ ext

/-- The `while os.path.exists(...)` loop of `_create_safe_filename`
(video_cutter.py:92-95), with an explicit fuel bound: tries
`{stem}_{counter}{ext}`, incrementing `counter` while the name exists. -/
def safeLoop (fs : List String) (stem ext : String) : Nat → Nat → String
  | 0, counter => mkNumbered stem ext counter
  | fuel + 1, counter =>
    if fs.contains (mkNumbered stem ext counter) then
      safeLoop fs stem ext fuel (counter + 1)
    else mkNumbered stem ext counter

/-- `VideoCutter._create_safe_filename` (video_cutter.py:85-95), with the
filesystem contents made explicit as the list `fs` of existing paths:
returns `base_filename` unchanged when it does not exist, otherwise the
first `{stem}_{n}{ext}` (n = 1, 2, ...) that does not exist.
`fs.length + 1` fuel always suffices for the search. -/
def create_safe_filename (fs : List String) (base_filename : String) : String :=
  if fs.contains base_filename then
    let se := splitext base_filename
    safeLoop fs se.1 se.2 (fs.length + 1) 1
  else base_filename

example : create_safe_filename [] "out.mp4" = "out.mp4" := by decide
example : create_safe_filename ["out.mp4"] "out.mp4" = "out_1.mp4" := by decide
example : create_safe_filename ["out.mp4", "out_1.mp4"] "out.mp4" = "out_2.mp4" := by decide

/-- Model of `pathlib.PurePath.suffix` for a plain path string: the final
component's extension including the dot, or `""`. -/
def pathSuffix (p : String) : String :=
  let nm := (p.data.reverse.takeWhile (fun c => ¬ c = '/')).reverse
  let i := lastIndexOf nm '.'
  if 0 < i ∧ i < (nm.length : Int) - 1 then ⟨nm.drop i.toNat⟩ else ""

example : pathSuffix "in.mp4" = ".mp4" := by decide
example : pathSuffix "dir/in.tar.gz" = ".gz" := by decide
example : pathSuffix "noext" = "" := by decide

/-- Model of Python `os.path.join(a, b)` (posix rules, two arguments). -/
def pjoin (a b : String) : String :=
  if b.data.head? = some '/' then b
  else if a = "" ∨ a.data.getLast? = some '/' then a ++ b
  else a ++ "/" ++ b

example : pjoin "." "temp_permission_test.tmp" = "./temp_permission_test.tmp" := by decide

/-- The FFmpeg argument vector built by `cut_video` for one segment
(video_cutter.py:163-207): `-ss start` always, `-to end` when the segment
has an end boundary; with scale arguments the command re-encodes, without
them it stream-copies via `-c copy`. -/
def buildCmd (input_video start_time : String) (end_time : Option String)
    (scale_args : List String) (output_filename : String) : List String :=
  match end_time with
  | some e =>
      if scale_args ≠ [] then
        ["ffmpeg", "-i", input_video, "-ss", start_time, "-to", e,
         "-avoid_negative_ts", "make_zero", "-y"] ++ scale_args ++ [output_filename]
      else
        ["ffmpeg", "-i", input_video, "-ss", start_time, "-to", e,
         "-c", "copy", "-avoid_negative_ts", "make_zero", "-y", output_filename]
  | none =>
      if scale_args ≠ [] then
        ["ffmpeg", "-i", input_video, "-ss", start_time,
         "-avoid_negative_ts", "make_zero", "-y"] ++ scale_args ++ [output_filename]
      else
        ["ffmpeg", "-i", input_video, "-ss", start_time,
         "-c", "copy", "-avoid_negative_ts", "make_zero", "-y", output_filename]

/-- Whether a command element is a scale filter value (`scale=...`). -/
def isScaleArg (v : String) : Bool := "scale=".data.isPrefixOf v.data

/-- Number of scale filter arguments in a command: adjacent pairs
`-vf scale=...`. -/
def countScaleFilter : List String → Nat
  | [] => 0
  | [_] => 0
  | a :: b :: rest =>
      (if a = "-vf" ∧ isScaleArg b = true then 1 else 0) + countScaleFilter (b :: rest)

/-- Whether a command contains the copy-codecs flag: an adjacent pair
`-c copy`. -/
def hasCopyFlag : List String → Bool
  | a :: b :: rest => (a = "-c" && b = "copy") || hasCopyFlag (b :: rest)
  | _ => false

/-- Whether a string matches the regular expression
`\d{2}:\d{2}:\d{2}`: exactly eight characters, colons at positions 2 and
5, ASCII digits elsewhere. -/
def matchesHHMMSS (s : String) : Bool :=
  match s.data with
  | [h1, h2, c1, m1, m2, c2, s1, s2] =>
      isDigitCh h1 && isDigitCh h2 && (c1 == ':') && isDigitCh m1 && isDigitCh m2 &&
        (c2 == ':') && isDigitCh s1 && isDigitCh s2
  | _ => false

/-- The value following the first occurrence of `flag` in an argument
list. -/
def flagValue (flag : String) : List String → Option String
  | a :: b :: rest => if a = flag then some b else flagValue flag (b :: rest)
  | _ => none

/-- Whether a raw timestamp field parses as an integer in `[0, 99]` (the
range in which a `{:02d}`-rendered field is exactly two digits). -/
def fieldInRange (p : List Char) : Bool :=
  match pyIntL p with
  | some k => decide (0 ≤ k ∧ k < 100)
  | none => false

/-- Whether a (lowercased, stripped) scale selector is one of the four
preset names of `_parse_scale_settings`. -/
def isPreset (t : String) : Bool :=
  t = "720p" || t = "480p" || t = "360p" || t = "240p"

example : countScaleFilter (buildCmd "in.mp4" "00:00:00" (some "00:00:05") [] "out.mp4") = 0 := by decide
example : hasCopyFlag (buildCmd "in.mp4" "00:00:00" none [] "out.mp4") = true := by decide
example : countScaleFilter (buildCmd "in.mp4" "00:00:00" none ["-vf", "scale=1280:720", "-b:v", "2M", "-b:a", "128k"] "out.mp4") = 1 := by decide

/-- Lexicographic comparison of character lists by code point: the order
Python uses to sort the canonical timestamp strings. -/
def listLexLe : List Char → List Char → Bool
  | [], _ => true
  | _ :: _, [] => false
  | a :: as, b :: bs =>
      if a.toNat < b.toNat then true
      else if b.toNat < a.toNat then false
      else listLexLe as bs

/-- Python string ordering (`<=` by code points), used by `list.sort()`. -/
def strLe (a b : String) : Prop := listLexLe a.data b.data = true

instance : DecidableRel strLe := fun a b =>
  inferInstanceAs (Decidable (listLexLe a.data b.data = true))

/-- The corresponding strict order. -/
def strLt (a b : String) : Prop := strLe a b ∧ a ≠ b

instance : DecidableRel strLt := fun a b =>
  inferInstanceAs (Decidable (strLe a b ∧ a ≠ b))

/-- The timestamp phase of `cut_video` (video_cutter.py:118-123) applied to
the already-parsed canonical strings: sort ascending, then insert
`"00:00:00"` at the front when the first element differs from it. -/
def boundariesOf (parsed : List String) : List String :=
  let sorted := parsed.insertionSort strLe
  if sorted.head? ≠ some "00:00:00" then "00:00:00" :: sorted else sorted

/-- Sequencing of a fallible parse over a list, stopping at the first
failure: the model of the Python `for ts in timestamps:
parsed_timestamps.append(...)` loop with exception propagation. -/
def mapMExcept (f : α → Except ε β) : List α → Except ε (List β)
  | [] => .ok []
  | a :: as =>
    match f a with
    | .error e => .error e
    | .ok b =>
      match mapMExcept f as with
      | .error e => .error e
      | .ok bs => .ok (b :: bs)

/-- The timestamp phase of `cut_video` (video_cutter.py:110-123): reject an
empty timestamp list, parse every raw timestamp (propagating the first
`ValueError`), sort, and prepend the zero boundary when absent. -/
def planBoundaries (timestamps : List String) : Except PyExn (List String) :=
  if timestamps.isEmpty then .error (.valueError "At least one timestamp is required")
  else (mapMExcept parse_timestamp timestamps).map boundariesOf

/-- The segments induced by a boundary list, as computed by the loop at
video_cutter.py:151-157: segment `i` runs from boundary `i` to boundary
`i+1`, the last segment to the end of the media (`none`). -/
def mkSegments : List String → List (String × Option String)
  | [] => []
  | b :: rest => (b, rest.head?) :: mkSegments rest

example : planBoundaries ["1:30", "0:10", "3:45"] =
    .ok ["00:00:00", "00:00:10", "00:01:30", "00:03:45"] := by decide
example : planBoundaries ["10", "10"] =
    .ok ["00:00:00", "00:00:10", "00:00:10"] := by decide

/-- Outcome of one `subprocess.run` invocation of the transcoder:
success, a `CalledProcessError` carrying stderr, or any other exception. -/
inductive RunResult where
  | ok
  | processError (stderr : String)
  | otherError (msg : String)
deriving DecidableEq

/-- The effectful environment `cut_video` runs against: which probe paths
are writable, and what the transcoder does on each command. -/
structure World where
  canWrite : String → Bool
  run : List String → RunResult

/-- The scale-argument resolution step of `cut_video`
(video_cutter.py:146-148): `scale_args = []` unless a truthy `scale` is
supplied, in which case `_parse_scale_settings` runs. -/
def resolveScaleArgs (scale : Option String) : Except PyExn (List String) :=
  match scale with
  | some s => if s = "" then .ok [] else parse_scale_settings s
  | none => .ok []

/-- The per-segment loop of `cut_video` (video_cutter.py:151-242), with the
filesystem threaded explicitly: for each boundary, derive the base
filename, make it collision-free against the current filesystem, build the
FFmpeg command, and run it; a successful run records the output file (and
creates it), while `CalledProcessError` and any other exception merely
`continue` to the next segment.  Returns the trace of executed commands
and the collected `output_files`.  `segOut` is the per-segment output-path
computation (base filename, optional directory join, collision
avoidance). -/
def segOut (fs : List String) (outPre : String) (output_dir : Option String)
    (ext : String) (i : Nat) : String :=
  let base := outPre ++ "_segment_" ++ natRepr (i + 1) ++ "." ++ ext
  let base := match output_dir with
    | some d => pjoin d base
    | none => base
  create_safe_filename fs base

def segLoop (w : World) (input_video outPre : String) (output_dir : Option String)
    (scale_args : List String) (ext : String) :
    Nat → List String → List String → List (List String) × List String
  | _, _, [] => ([], [])
  | i, fs, b :: rest =>
    let out := segOut fs outPre output_dir ext i
    let cmd := buildCmd input_video b rest.head? scale_args out
    match w.run cmd with
    | .ok =>
        let r := segLoop w input_video outPre output_dir scale_args ext (i + 1) (fs ++ [out]) rest
        (cmd :: r.1, out :: r.2)
    | _ =>
        let r := segLoop w input_video outPre output_dir scale_args ext (i + 1) fs rest
        (cmd :: r.1, r.2)

/-- `VideoCutter.cut_video` (video_cutter.py:97-242) over the explicit
`World`: reject an empty timestamp list, parse and order the timestamps,
probe write permission on `temp_permission_test.tmp` in the output
directory (default `"."`), resolve the scale arguments, then run the
segment loop.  Returns the Python result (the `output_files` list, or the
raised exception) together with the trace of transcoder commands that were
executed. -/
def cut_video (w : World) (input_video : String) (fs : List String)
    (timestamps : List String) (outPre : String) (scale : Option String)
    (output_dir : Option String) :
    Except PyExn (List String) × List (List String) :=
  if timestamps.isEmpty then
    (.error (.valueError "At least one timestamp is required"), [])
  else
    match mapMExcept parse_timestamp timestamps with
    | .error e => (.error e, [])
    | .ok parsed =>
      let bs := boundariesOf parsed
      let test_dir := output_dir.getD "."
      if w.canWrite (pjoin test_dir "temp_permission_test.tmp") = false then
        (.error (.permissionError ("No write permission in directory \x27" ++ test_dir ++
          "\x27. Try running as administrator or choosing a different directory.")), [])
      else
        match resolveScaleArgs scale with
        | .error e => (.error e, [])
        | .ok scale_args =>
          let ext : String := ⟨(pathSuffix input_video).data.drop 1⟩
          let r := segLoop w input_video outPre output_dir scale_args ext 0 fs bs
          (.ok r.2, r.1)

example :
    cut_video ⟨fun _ => true, fun _ => .processError "boom"⟩ "in.mp4" [] ["0"] "output" none none =
      (.ok [], [["ffmpeg", "-i", "in.mp4", "-ss", "00:00:00",
                 "-c", "copy", "-avoid_negative_ts", "make_zero", "-y", "output_segment_1.mp4"]]) := by
  decide
example :
    cut_video ⟨fun _ => true, fun _ => .ok⟩ "in.mp4" [] ["5"] "output" none none =
      (.ok ["output_segment_1.mp4", "output_segment_2.mp4"],
       [["ffmpeg", "-i", "in.mp4", "-ss", "00:00:00", "-to", "00:00:05",
         "-c", "copy", "-avoid_negative_ts", "make_zero", "-y", "output_segment_1.mp4"],
        ["ffmpeg", "-i", "in.mp4", "-ss", "00:00:05",
         "-c", "copy", "-avoid_negative_ts", "make_zero", "-y", "output_segment_2.mp4"]]) := by
  decide
example :
    cut_video ⟨fun p => ¬ p = "./temp_permission_test.tmp", fun _ => .ok⟩
        "in.mp4" [] ["5"] "output" none none =
      (.error (.permissionError "No write permission in directory \x27.\x27. Try running as administrator or choosing a different directory."), []) := by
  decide

/-! ### Characters and the code-point order -/

theorem charToNat_inj {a b : Char} (h : a.toNat = b.toNat) : a = b := by
  apply Char.eq_of_val_eq
  unfold Char.toNat at h
  exact UInt32.eq_of_val_eq (Fin.ext h)

theorem listLexLe_refl : ∀ l : List Char, listLexLe l l = true
  | [] => rfl
  | a :: as => by simp [listLexLe, listLexLe_refl as]

theorem listLexLe_total : ∀ a b : List Char, listLexLe a b = true ∨ listLexLe b a = true
  | [], _ => .inl rfl
  | _ :: _, [] => .inr rfl
  | a :: as, b :: bs => by
    simp only [listLexLe]
    rcases Nat.lt_trichotomy a.toNat b.toNat with h | h | h
    · left; simp [h]
    · simpa [h] using listLexLe_total as bs
    · right; simp [h, Nat.lt_asymm h]

theorem listLexLe_trans :
    ∀ a b c : List Char, listLexLe a b = true → listLexLe b c = true → listLexLe a c = true
  | [], _, _, _, _ => rfl
  | _ :: _, [], _, hab, _ => by simp [listLexLe] at hab
  | _ :: _, _ :: _, [], _, hbc => by simp [listLexLe] at hbc
  | a :: as, b :: bs, c :: cs, hab, hbc => by
    simp only [listLexLe] at hab hbc ⊢
    rcases Nat.lt_trichotomy a.toNat b.toNat with h1 | h1 | h1
    · rcases Nat.lt_trichotomy b.toNat c.toNat with h2 | h2 | h2
      · simp [Nat.lt_trans h1 h2]
      · simp [h2 ▸ h1]
      · simp [h2, Nat.lt_asymm h2] at hbc
    · rcases Nat.lt_trichotomy b.toNat c.toNat with h2 | h2 | h2
      · simp [h1 ▸ h2]
      · simp [h1, h2] at hab hbc ⊢
        exact listLexLe_trans as bs cs hab hbc
      · simp [h2, Nat.lt_asymm h2] at hbc
    · simp [h1, Nat.lt_asymm h1] at hab

theorem listLexLe_antisymm :
    ∀ a b : List Char, listLexLe a b = true → listLexLe b a = true → a = b
  | [], [], _, _ => rfl
  | [], _ :: _, _, hba => by simp [listLexLe] at hba
  | _ :: _, [], hab, _ => by simp [listLexLe] at hab
  | a :: as, b :: bs, hab, hba => by
    simp only [listLexLe] at hab hba
    rcases Nat.lt_trichotomy a.toNat b.toNat with h | h | h
    · simp [h, Nat.lt_asymm h] at hba
    · have he : a = b := charToNat_inj h
      subst he
      simp only [Nat.lt_irrefl, if_false] at hab hba
      rw [listLexLe_antisymm as bs hab hba]
    · simp [h, Nat.lt_asymm h] at hab

instance : IsTotal String strLe := ⟨fun a b => listLexLe_total a.data b.data⟩

instance : IsTrans String strLe :=
  ⟨fun a b c hab hbc => listLexLe_trans a.data b.data c.data hab hbc⟩

theorem strLe_refl (a : String) : strLe a a := listLexLe_refl a.data

theorem strLe_antisymm {a b : String} (h1 : strLe a b) (h2 : strLe b a) : a = b :=
  String.ext (listLexLe_antisymm a.data b.data h1 h2)

theorem sorted_strLt_of_nodup {l : List String} (hs : l.Sorted strLe) (hn : l.Nodup) :
    l.Sorted strLt :=
  (hs.and hn).imp fun h => h

/-! ### Decimal digits and Python `int`/`str` round trips -/

theorem isDigitCh_toNat {c : Char} (h : isDigitCh c = true) :
    48 ≤ c.toNat ∧ c.toNat ≤ 57 := by
  simpa [isDigitCh, Bool.and_eq_true, decide_eq_true_eq] using h

theorem digitChar_toNat {d : Nat} (h : d < 10) : (digitChar d).toNat = 48 + d := by
  interval_cases d <;> decide

theorem isDigitCh_digitChar {d : Nat} (h : d < 10) : isDigitCh (digitChar d) = true := by
  simp only [isDigitCh, digitChar_toNat h, Bool.and_eq_true, decide_eq_true_eq]
  omega

theorem not_ws_of_digit {c : Char} (h : isDigitCh c = true) : isPyWs c = false := by
  obtain ⟨h1, _⟩ := isDigitCh_toNat h
  simp only [isPyWs, Bool.or_eq_false_iff, decide_eq_false_iff_not]
  refine ⟨⟨⟨⟨⟨?_, ?_⟩, ?_⟩, ?_⟩, ?_⟩, ?_⟩ <;> (rintro rfl; exact absurd h1 (by decide))

theorem digit_ne_colon {c : Char} (h : isDigitCh c = true) : c ≠ ':' := by
  obtain ⟨_, h2⟩ := isDigitCh_toNat h
  rintro rfl; exact absurd h2 (by decide)

theorem digit_ne_minus {c : Char} (h : isDigitCh c = true) : c ≠ '-' := by
  obtain ⟨h1, _⟩ := isDigitCh_toNat h
  rintro rfl; exact absurd h1 (by decide)

theorem digit_ne_plus {c : Char} (h : isDigitCh c = true) : c ≠ '+' := by
  obtain ⟨h1, _⟩ := isDigitCh_toNat h
  rintro rfl; exact absurd h1 (by decide)

theorem natDigitsAux_zero : ∀ fuel, natDigitsAux fuel 0 = []
  | 0 => rfl
  | _ + 1 => by simp [natDigitsAux]

theorem natDigitsAux_spec : ∀ fuel n, 0 < n → n ≤ fuel →
    natDigitsAux fuel n ≠ [] ∧ (natDigitsAux fuel n).all isDigitCh = true ∧
      ∀ a : Nat, (natDigitsAux fuel n).foldl (fun acc c => 10 * acc + (c.toNat - 48)) a =
        a * 10 ^ (natDigitsAux fuel n).length + n := by
  intro fuel
  induction fuel with
  | zero => intro n h1 h2; omega
  | succ f ih =>
    intro n h1 h2
    have hn : n ≠ 0 := Nat.pos_iff_ne_zero.mp h1
    simp only [natDigitsAux, hn, if_false]
    by_cases hsm : n < 10
    · have hdiv : n / 10 = 0 := Nat.div_eq_of_lt hsm
      have hmod : n % 10 = n := Nat.mod_eq_of_lt hsm
      rw [hdiv, natDigitsAux_zero, List.nil_append]
      refine ⟨by simp, by simpa using isDigitCh_digitChar (Nat.mod_lt n (by omega)), ?_⟩
      intro a
      simp only [List.foldl_cons, List.foldl_nil, List.length_cons, List.length_nil]
      rw [digitChar_toNat (Nat.mod_lt n (by omega)), hmod]
      omega
    · have hd1 : 0 < n / 10 := Nat.div_pos (by omega) (by omega)
      have hd2 : n / 10 ≤ f := by
        have := Nat.div_lt_self h1 (by omega : 1 < 10)
        omega
      obtain ⟨ihne, ihall, ihfold⟩ := ih (n / 10) hd1 hd2
      have hmlt : n % 10 < 10 := Nat.mod_lt n (by omega)
      refine ⟨by simp, ?_, ?_⟩
      · rw [List.all_append, ihall]
        simp [isDigitCh_digitChar hmlt]
      · intro a
        rw [List.foldl_append, ihfold a]
        simp only [List.foldl_cons, List.foldl_nil, List.length_append, List.length_cons,
          List.length_nil]
        rw [digitChar_toNat hmlt]
        have hpow : 10 ^ ((natDigitsAux f (n / 10)).length + (0 + 1)) =
            10 ^ (natDigitsAux f (n / 10)).length * 10 := by ring
        have hdm : 10 * (n / 10) + n % 10 = n := Nat.div_add_mod n 10
        calc 10 * (a * 10 ^ (natDigitsAux f (n / 10)).length + n / 10) + (48 + n % 10 - 48)
            = a * (10 ^ (natDigitsAux f (n / 10)).length * 10) + (10 * (n / 10) + n % 10) := by
              ring_nf; omega
          _ = a * 10 ^ ((natDigitsAux f (n / 10)).length + (0 + 1)) + n := by rw [hpow, hdm]

theorem natDigits_ne_nil (n : Nat) : natDigits n ≠ [] := by
  unfold natDigits
  split
  · simp
  · exact (natDigitsAux_spec n n (by omega) le_rfl).1

theorem natDigits_all_digits (n : Nat) : (natDigits n).all isDigitCh = true := by
  unfold natDigits
  split
  · decide
  · exact (natDigitsAux_spec n n (by omega) le_rfl).2.1

theorem digitsVal_natDigits (n : Nat) : digitsVal (natDigits n) = n := by
  unfold digitsVal natDigits
  split
  · next h => subst h; decide
  · next h =>
    have := (natDigitsAux_spec n n (by omega) le_rfl).2.2 0
    simpa using this

theorem natRepr_inj {n m : Nat} (h : natRepr n = natRepr m) : n = m := by
  have hd : natDigits n = natDigits m := congrArg String.data h
  rw [← digitsVal_natDigits n, ← digitsVal_natDigits m, hd]

/-! ### Strip, split, and Python-int lemmas -/

theorem dropWhile_eq_self_of_not {p : Char → Bool} :
    ∀ l : List Char, (∀ c ∈ l, p c = false) → l.dropWhile p = l
  | [], _ => rfl
  | x :: xs, h => by
    rw [List.dropWhile_cons, h x (List.mem_cons_self x xs)]
    simp

theorem stripL_eq_self {l : List Char} (h : ∀ c ∈ l, isPyWs c = false) : stripL l = l := by
  unfold stripL
  rw [dropWhile_eq_self_of_not l h,
    dropWhile_eq_self_of_not _ (fun c hc => h c (List.mem_reverse.mp hc)),
    List.reverse_reverse]

theorem pySplitCh_ne_nil (c : Char) : ∀ l, pySplitCh c l ≠ []
  | [] => by simp [pySplitCh]
  | x :: xs => by
    cases hsplit : pySplitCh c xs <;> simp only [pySplitCh, hsplit]
    · simp
    · split <;> simp

theorem pySplitCh_no_sep (c : Char) : ∀ l, (∀ x ∈ l, x ≠ c) → pySplitCh c l = [l]
  | [], _ => rfl
  | x :: xs, h => by
    have ih := pySplitCh_no_sep c xs (fun y hy => h y (List.mem_cons_of_mem _ hy))
    simp [pySplitCh, ih, h x (List.mem_cons_self x xs)]

theorem pySplitCh_of_not_contains {c : Char} {l : List Char} (h : l.contains c = false) :
    pySplitCh c l = [l] := by
  refine pySplitCh_no_sep c l ?_
  intro x hx
  rintro rfl
  rw [List.contains, List.elem_iff.mpr hx] at h
  exact Bool.true_eq_false ▸ h

theorem pyIntL_digits {l : List Char} (hne : l ≠ []) (hall : l.all isDigitCh = true) :
    pyIntL l = some ((digitsVal l : Nat) : Int) := by
  have hmem : ∀ c ∈ l, isDigitCh c = true := List.all_eq_true.mp hall
  obtain ⟨c, ds, rfl⟩ := List.exists_cons_of_ne_nil hne
  have hc : isDigitCh c = true := hmem c (List.mem_cons_self c ds)
  unfold pyIntL
  rw [stripL_eq_self (fun x hx => not_ws_of_digit (hmem x hx))]
  simp [digit_ne_minus hc, digit_ne_plus hc, hall]

theorem pyIntL_natDigits (n : Nat) : pyIntL (natDigits n) = some (n : Int) := by
  rw [pyIntL_digits (natDigits_ne_nil n) (natDigits_all_digits n), digitsVal_natDigits]

theorem natDigitsAux_small (fuel : Nat) {m : Nat} (h1 : 0 < m) (h2 : m < 10) :
    natDigitsAux (fuel + 1) m = [digitChar m] := by
  simp only [natDigitsAux, Nat.pos_iff_ne_zero.mp h1, if_false]
  rw [Nat.div_eq_of_lt h2, natDigitsAux_zero, Nat.mod_eq_of_lt h2, List.nil_append]

theorem natDigits_lt_ten {n : Nat} (h : n < 10) : natDigits n = [digitChar n] := by
  unfold natDigits
  split
  · next h0 => subst h0; decide
  · next h0 =>
    obtain ⟨f, rfl⟩ := Nat.exists_eq_succ_of_ne_zero h0
    exact natDigitsAux_small f (by omega) h

theorem natDigitsAux_two (fuel : Nat) {m : Nat} (h1 : 10 ≤ m) (h2 : m < 100) :
    natDigitsAux (fuel + 2) m = [digitChar (m / 10), digitChar (m % 10)] := by
  have hq1 : 0 < m / 10 := Nat.div_pos h1 (by omega)
  have hq2 : m / 10 < 10 := (Nat.div_lt_iff_lt_mul (by omega)).mpr (by omega)
  rw [show natDigitsAux (fuel + 2) m =
      if m = 0 then [] else natDigitsAux (fuel + 1) (m / 10) ++ [digitChar (m % 10)] from rfl]
  rw [if_neg (by omega), natDigitsAux_small fuel hq1 hq2]
  simp

theorem natDigits_two_digits {n : Nat} (h1 : 10 ≤ n) (h2 : n < 100) :
    natDigits n = [digitChar (n / 10), digitChar (n % 10)] := by
  unfold natDigits
  rw [if_neg (by omega)]
  obtain ⟨f, rfl⟩ : ∃ f, n = f + 2 := ⟨n - 2, by omega⟩
  exact natDigitsAux_two f h1 h2

theorem format02_two_digit {n : Nat} (h : n < 100) :
    ∃ a b, (format02 (n : Int)).data = [a, b] ∧ isDigitCh a = true ∧ isDigitCh b = true := by
  unfold format02
  rw [if_neg (by omega : ¬ (n : Int) < 0)]
  have ht : (n : Int).toNat = n := Int.toNat_natCast n
  rw [ht]
  by_cases hn : n < 10
  · rw [natDigits_lt_ten hn, if_pos (by simp)]
    exact ⟨'0', digitChar n, rfl, by decide, isDigitCh_digitChar hn⟩
  · have hd : n / 10 < 10 := (Nat.div_lt_iff_lt_mul (by omega)).mpr (by omega)
    rw [natDigits_two_digits (by omega) h, if_neg (by simp)]
    exact ⟨digitChar (n / 10), digitChar (n % 10), rfl,
      isDigitCh_digitChar hd, isDigitCh_digitChar (Nat.mod_lt n (by omega))⟩

/-! ### Claim C1: normalization carries no overflow -/

/-- C1 counterexample: the claim asserts `normalize("90") = "00:01:30"`,
but `parse_timestamp` renders the seconds field in place without carrying
into minutes, producing `"00:00:90"`. -/
theorem C1_counterexample :
    parse_timestamp "90" = .ok "00:00:90" ∧ parse_timestamp "90" ≠ .ok "00:01:30" := by
  decide

/-- C1 (amended): timestamp normalization accepts a seconds value with no
upper bound but does not carry overflow into higher fields: every
nonnegative integer rendered in decimal normalizes to `00:00:` followed by
the `{:02d}`-formatted value itself; in particular
`normalize("90") = "00:00:90"` (not `"00:01:30"`), while
`normalize("1:30") = "00:01:30"` and `normalize("01:30:00") = "01:30:00"`
hold as claimed. -/
theorem parse_timestamp_no_carry :
    (∀ n : Nat, parse_timestamp (natRepr n) = .ok ("00:00:" ++ format02 (n : Int))) ∧
    parse_timestamp "90" = .ok "00:00:90" ∧
    parse_timestamp "1:30" = .ok "00:01:30" ∧
    parse_timestamp "01:30:00" = .ok "01:30:00" := by
  refine ⟨?_, by decide, by decide, by decide⟩
  intro n
  have hall : ∀ c ∈ natDigits n, isDigitCh c = true :=
    List.all_eq_true.mp (natDigits_all_digits n)
  unfold parse_timestamp
  have hstrip : pyStrip (natRepr n) = natRepr n := by
    show (⟨stripL (natDigits n)⟩ : String) = _
    rw [stripL_eq_self (fun c hc => not_ws_of_digit (hall c hc))]
    rfl
  have hsplit : pySplitCh ':' (natRepr n).data = [natDigits n] :=
    pySplitCh_no_sep ':' _ (fun x hx => digit_ne_colon (hall x hx))
  rw [hstrip]
  simp only [hsplit, pyIntL_natDigits]

/-! ### Claim C3: canonical form is zero-padded HH:MM:SS -/

theorem matchesHHMMSS_data {sOut : String} {a b c d e f : Char}
    (hdata : sOut.data = [a, b, ':', c, d, ':', e, f])
    (ha : isDigitCh a = true) (hb : isDigitCh b = true)
    (hc : isDigitCh c = true) (hd : isDigitCh d = true)
    (he : isDigitCh e = true) (hf : isDigitCh f = true) :
    matchesHHMMSS sOut = true := by
  unfold matchesHHMMSS
  rw [hdata]
  simp [ha, hb, hc, hd, he, hf]

/-- C3 counterexample: the claim asserts every normalized 1/2/3-field
timestamp matches `\d{2}:\d{2}:\d{2}`, but a field value of 100 or more is
rendered with three digits: `normalize("100") = "00:00:100"`. -/
theorem C3_counterexample :
    parse_timestamp "100" = .ok "00:00:100" ∧ matchesHHMMSS "00:00:100" = false := by
  decide

/-- C3 (amended): each field is zero-padded to a minimum of two digits but
may exceed two; whenever every colon-separated field of the (stripped)
input parses as an integer in `[0, 99]`, the normalized result matches
`\d{2}:\d{2}:\d{2}`. -/
theorem parse_timestamp_shape (s out : String)
    (hok : parse_timestamp s = .ok out)
    (hf : (pySplitCh ':' (pyStrip s).data).all fieldInRange = true) :
    matchesHHMMSS out = true := by
  unfold parse_timestamp at hok
  rcases hP : pySplitCh ':' (pyStrip s).data with _ | ⟨p, _ | ⟨q, _ | ⟨r, rest⟩⟩⟩
  · exact absurd hP (pySplitCh_ne_nil ':' _)
  · rw [hP] at hf
    simp only [hP] at hok
    rcases hip : pyIntL p with _ | k
    · simp [hip] at hok
    · simp only [hip] at hok
      simp only [List.all_cons, List.all_nil, Bool.and_true, fieldInRange, hip,
        decide_eq_true_eq] at hf
      obtain ⟨hk0, hk99⟩ := hf
      have hkn : k = ((k.toNat : Nat) : Int) := (Int.toNat_of_nonneg hk0).symm
      have hlt : k.toNat < 100 := by omega
      obtain ⟨a, b, hdata, hda, hdb⟩ := format02_two_digit hlt
      have hout : out = "00:00:" ++ format02 k := by
        injection hok with h
        exact h.symm
      refine matchesHHMMSS_data (a := '0') (b := '0') (c := '0') (d := '0') (e := a) (f := b)
        ?_ (by decide) (by decide) (by decide) (by decide) hda hdb
      rw [hout, String.data_append, hkn, hdata]
      rfl
  · rw [hP] at hf
    simp only [hP] at hok
    rcases hip : pyIntL p with _ | k <;> rcases hiq : pyIntL q with _ | m
    · simp [hip, hiq] at hok
    · simp [hip, hiq] at hok
    · simp [hip, hiq] at hok
    · simp only [hip, hiq] at hok
      simp only [List.all_cons, List.all_nil, Bool.and_true, Bool.and_eq_true, fieldInRange,
        hip, hiq, decide_eq_true_eq] at hf
      obtain ⟨⟨hk0, hk99⟩, hm0, hm99⟩ := hf
      have hkn : k = ((k.toNat : Nat) : Int) := (Int.toNat_of_nonneg hk0).symm
      have hmn : m = ((m.toNat : Nat) : Int) := (Int.toNat_of_nonneg hm0).symm
      obtain ⟨a, b, hdataK, hda, hdb⟩ := format02_two_digit (show k.toNat < 100 by omega)
      obtain ⟨c, d, hdataM, hdc, hdd⟩ := format02_two_digit (show m.toNat < 100 by omega)
      have hout : out = "00:" ++ format02 k ++ ":" ++ format02 m := by
        injection hok with h
        exact h.symm
      refine matchesHHMMSS_data (a := '0') (b := '0') (c := a) (d := b) (e := c) (f := d)
        ?_ (by decide) (by decide) hda hdb hdc hdd
      rw [← hkn] at hdataK
      rw [← hmn] at hdataM
      rw [hout]
      simp only [String.data_append, hdataK, hdataM]
      rfl
  · rcases rest with _ | ⟨x, rest'⟩
    · rw [hP] at hf
      simp only [hP] at hok
      rcases hip : pyIntL p with _ | k <;> rcases hiq : pyIntL q with _ | m <;>
        rcases hir : pyIntL r with _ | u
      · simp [hip, hiq, hir] at hok
      · simp [hip, hiq, hir] at hok
      · simp [hip, hiq, hir] at hok
      · simp [hip, hiq, hir] at hok
      · simp [hip, hiq, hir] at hok
      · simp [hip, hiq, hir] at hok
      · simp [hip, hiq, hir] at hok
      simp only [hip, hiq, hir] at hok
      simp only [List.all_cons, List.all_nil, Bool.and_true, Bool.and_eq_true, fieldInRange,
        hip, hiq, hir, decide_eq_true_eq] at hf
      obtain ⟨⟨hk0, hk99⟩, ⟨hm0, hm99⟩, hu0, hu99⟩ := hf
      have hkn : k = ((k.toNat : Nat) : Int) := (Int.toNat_of_nonneg hk0).symm
      have hmn : m = ((m.toNat : Nat) : Int) := (Int.toNat_of_nonneg hm0).symm
      have hun : u = ((u.toNat : Nat) : Int) := (Int.toNat_of_nonneg hu0).symm
      obtain ⟨a, b, hdataK, hda, hdb⟩ := format02_two_digit (show k.toNat < 100 by omega)
      obtain ⟨c, d, hdataM, hdc, hdd⟩ := format02_two_digit (show m.toNat < 100 by omega)
      obtain ⟨e, f, hdataU, hde, hdf⟩ := format02_two_digit (show u.toNat < 100 by omega)
      have hout : out = format02 k ++ ":" ++ format02 m ++ ":" ++ format02 u := by
        injection hok with h
        exact h.symm
      refine matchesHHMMSS_data (a := a) (b := b) (c := c) (d := d) (e := e) (f := f)
        ?_ hda hdb hdc hdd hde hdf
      rw [← hkn] at hdataK
      rw [← hmn] at hdataM
      rw [← hun] at hdataU
      rw [hout]
      simp only [String.data_append, hdataK, hdataM, hdataU]
      rfl
    · simp only [hP] at hok
      exact absurd hok (by simp)

/-- C3 witness: the amended theorem applied to the concrete input
`"1:2:3"`, whose normalized form `"01:02:03"` matches the pattern. -/
theorem parse_timestamp_shape_witness : matchesHHMMSS "01:02:03" = true :=
  parse_timestamp_shape "1:2:3" "01:02:03" (by decide) (by decide)

/-! ### Claim C4: when normalization fails -/

theorem isOk_ok {ε α : Type} (x : α) : (Except.ok x : Except ε α).isOk = true := rfl

theorem isOk_error {ε α : Type} (e : ε) : (Except.error e : Except ε α).isOk = false := rfl

/-- C4 counterexample: the claim asserts `normalize("-5")` fails with
`InvalidTimestampFormat`, but Python `int("-5")` succeeds, so
`parse_timestamp "-5"` returns `"00:00:-5"`. -/
theorem C4_counterexample :
    parse_timestamp "-5" = .ok "00:00:-5" ∧ (parse_timestamp "-5").isOk = true := by
  decide

/-- C4 (amended): `parse_timestamp` fails exactly when the stripped input
has more than three colon-separated fields or some field does not parse as
a (possibly signed) base-10 integer; negative fields are accepted, so
`normalize("abc")` and `normalize("1:2:3:4")` fail while
`normalize("-5")` succeeds. -/
theorem parse_timestamp_fail_iff :
    (∀ s : String,
      (parse_timestamp s).isOk = false ↔
        3 < (pySplitCh ':' (pyStrip s).data).length ∨
          ∃ p ∈ pySplitCh ':' (pyStrip s).data, pyIntL p = none) ∧
    (parse_timestamp "abc").isOk = false ∧
    (parse_timestamp "1:2:3:4").isOk = false ∧
    parse_timestamp "-5" = .ok "00:00:-5" := by
  refine ⟨?_, by decide, by decide, by decide⟩
  intro s
  rcases hP : pySplitCh ':' (pyStrip s).data with _ | ⟨p, _ | ⟨q, _ | ⟨r, _ | ⟨x, rest⟩⟩⟩⟩
  · exact absurd hP (pySplitCh_ne_nil ':' _)
  · rcases hip : pyIntL p with _ | k <;>
      simp [parse_timestamp, hP, hip, isOk_ok, isOk_error]
  · rcases hip : pyIntL p with _ | k <;> rcases hiq : pyIntL q with _ | m <;>
      simp [parse_timestamp, hP, hip, hiq, isOk_ok, isOk_error]
  · rcases hip : pyIntL p with _ | k <;> rcases hiq : pyIntL q with _ | m <;>
      rcases hir : pyIntL r with _ | u <;>
      simp [parse_timestamp, hP, hip, hiq, hir, isOk_ok, isOk_error]
  · simp only [parse_timestamp, hP]
    simp [isOk_error]

/-! ### Claim C5: preset scale profiles -/

/-- C5 counterexample: the claim asserts an audio bitrate of `128k` is
implicit for every preset, but the `480p` preset carries `-b:a 96k`. -/
theorem C5_counterexample :
    parse_scale_settings "480p" = .ok ["-vf", "scale=854:480", "-b:v", "1M", "-b:a", "96k"] ∧
    flagValue "-b:a" ["-vf", "scale=854:480", "-b:v", "1M", "-b:a", "96k"] = some "96k" ∧
    some "96k" ≠ some "128k" := by
  decide

/-- C5 (amended): each of the four presets resolves to its fixed
width/height and bitrates, with audio bitrates `128k` (720p), `96k`
(480p), `64k` (360p), and `64k` (240p) — `128k` audio is implicit only for
the 720p preset (and for custom profiles); in particular `resolve("720p")`
yields width 1280 and height 720. -/
theorem parse_scale_settings_presets :
    parse_scale_settings "720p" = .ok ["-vf", "scale=1280:720", "-b:v", "2M", "-b:a", "128k"] ∧
    parse_scale_settings "480p" = .ok ["-vf", "scale=854:480", "-b:v", "1M", "-b:a", "96k"] ∧
    parse_scale_settings "360p" = .ok ["-vf", "scale=640:360", "-b:v", "500k", "-b:a", "64k"] ∧
    parse_scale_settings "240p" = .ok ["-vf", "scale=426:240", "-b:v", "250k", "-b:a", "64k"] := by
  decide

/-! ### Claim C6: custom scale selectors -/

/-- C6 counterexample: the claim asserts a custom selector succeeds only
when width and height are positive integers, but `"0:0"` (width 0,
height 0) is accepted. -/
theorem C6_counterexample :
    parse_scale_settings "0:0" = .ok ["-vf", "scale=0:0", "-b:v", "1M", "-b:a", "128k"] := by
  decide

/-- C6 (amended): for a non-preset selector, `_parse_scale_settings`
succeeds exactly when the lowercased, stripped selector contains a colon
and its first two fields parse as (possibly signed or non-positive)
base-10 integers; any other shape, including colon-bearing selectors with
non-integer width/height, fails with `ValueError` rather than silently
selecting no scaling. -/
theorem parse_scale_settings_custom (s : String)
    (hp : isPreset (pyStrip (pyLower s)) = false) :
    (parse_scale_settings s).isOk = true ↔
      ∃ p0 p1 rest, pySplitCh ':' (pyStrip (pyLower s)).data = p0 :: p1 :: rest ∧
        (pyIntL p0).isSome = true ∧ (pyIntL p1).isSome = true := by
  simp only [isPreset, Bool.or_eq_false_iff, decide_eq_false_iff_not] at hp
  obtain ⟨⟨⟨h7, h4⟩, h3⟩, h2⟩ := hp
  constructor
  · intro hok
    unfold parse_scale_settings at hok
    simp only [h7, h4, h3, h2, if_false] at hok
    by_cases hc : (pyStrip (pyLower s)).data.contains ':'
    · rw [if_pos hc] at hok
      rcases hP : pySplitCh ':' (pyStrip (pyLower s)).data with _ | ⟨p0, _ | ⟨p1, rest⟩⟩
      · exact absurd hP (pySplitCh_ne_nil ':' _)
      · rw [hP] at hok
        simp [isOk_error] at hok
      · rw [hP] at hok
        rcases hi0 : pyIntL p0 with _ | w <;> rcases hi1 : pyIntL p1 with _ | h
        · simp [hi0, hi1, isOk_error] at hok
        · simp [hi0, hi1, isOk_error] at hok
        · simp [hi0, hi1, isOk_error] at hok
        · exact ⟨p0, p1, rest, rfl, by simp [hi0], by simp [hi1]⟩
    · rw [if_neg hc] at hok
      simp [isOk_error] at hok
  · rintro ⟨p0, p1, rest, hP, hi0, hi1⟩
    obtain ⟨w, hw⟩ := Option.isSome_iff_exists.mp hi0
    obtain ⟨h, hh⟩ := Option.isSome_iff_exists.mp hi1
    have hc : (pyStrip (pyLower s)).data.contains ':' = true := by
      by_contra hnc
      have := pySplitCh_of_not_contains (c := ':') (l := (pyStrip (pyLower s)).data)
        (Bool.not_eq_true _ ▸ hnc)
      rw [this] at hP
      exact absurd hP (by simp)
    unfold parse_scale_settings
    simp only [h7, h4, h3, h2, if_false, hc, if_true, hP, hw, hh]
    simp [isOk_ok]

/-- C6 witness: the amended characterization applied to the concrete
non-preset selector `"0:0"`, which contains a colon and two integer
fields and therefore resolves successfully. -/
theorem parse_scale_settings_custom_witness :
    (parse_scale_settings "0:0").isOk = true ↔
      ∃ p0 p1 rest, pySplitCh ':' (pyStrip (pyLower "0:0")).data = p0 :: p1 :: rest ∧
        (pyIntL p0).isSome = true ∧ (pyIntL p1).isSome = true :=
  parse_scale_settings_custom "0:0" (by decide)

/-! ### Claim C8: stream-copy vs re-encode command modes -/

theorem isScaleArg_scale_pre (r : String) : isScaleArg ("scale=" ++ r) = true := by
  unfold isScaleArg
  rw [String.data_append]
  exact List.isPrefixOf_iff_prefix.mpr (List.prefix_append _ _)

theorem parse_scale_settings_shape {scale : String} {args : List String}
    (hok : parse_scale_settings scale = .ok args) :
    ∃ sf vb ab, args = ["-vf", sf, "-b:v", vb, "-b:a", ab] ∧ isScaleArg sf = true ∧
      (ab = "128k" ∨ ab = "96k" ∨ ab = "64k") := by
  unfold parse_scale_settings at hok
  simp only [] at hok
  split at hok
  · injection hok with h
    exact ⟨"scale=1280:720", "2M", "128k", h.symm, by decide, by decide⟩
  · split at hok
    · injection hok with h
      exact ⟨"scale=854:480", "1M", "96k", h.symm, by decide, Or.inr (Or.inl rfl)⟩
    · split at hok
      · injection hok with h
        exact ⟨"scale=640:360", "500k", "64k", h.symm, by decide, Or.inr (Or.inr rfl)⟩
      · split at hok
        · injection hok with h
          exact ⟨"scale=426:240", "250k", "64k", h.symm, by decide, Or.inr (Or.inr rfl)⟩
        · split at hok
          · rcases hP : pySplitCh ':' (pyStrip (pyLower scale)).data with _ | ⟨p0, _ | ⟨p1, rest⟩⟩
            · exact absurd hP (pySplitCh_ne_nil ':' _)
            · rw [hP] at hok
              simp at hok
            · rw [hP] at hok
              rcases hi0 : pyIntL p0 with _ | w <;> rcases hi1 : pyIntL p1 with _ | h
              · simp [hi0, hi1] at hok
              · simp [hi0, hi1] at hok
              · simp [hi0, hi1] at hok
              · simp only [hi0, hi1] at hok
                injection hok with h
                refine ⟨_, _, _, h.symm, ?_, Or.inl rfl⟩
                rw [String.append_assoc, String.append_assoc]
                exact isScaleArg_scale_pre _
          · simp at hok

/-- C8: command construction branches solely on scale-profile presence:
with no profile (`scale_args = []`) the built command contains no scale
filter argument and carries the `-c copy` flag; with a resolved profile it
contains exactly one scale filter argument and no `-c copy` flag, for
every input path, start time, optional end time, and output path. -/
theorem buildCmd_modes :
    (∀ iv st (e : Option String) out,
      countScaleFilter (buildCmd iv st e [] out) = 0 ∧
      hasCopyFlag (buildCmd iv st e [] out) = true) ∧
    (∀ scale args iv st (e : Option String) out,
      parse_scale_settings scale = .ok args →
      countScaleFilter (buildCmd iv st e args out) = 1 ∧
      hasCopyFlag (buildCmd iv st e args out) = false) := by
  constructor
  · intro iv st e out
    rcases e with _ | e <;> constructor <;>
      simp [buildCmd, countScaleFilter, hasCopyFlag, isScaleArg]
  · intro scale args iv st e out hok
    obtain ⟨sf, vb, ab, rfl, hsf, hab⟩ := parse_scale_settings_shape hok
    have l1 : isScaleArg "-ss" = false := by decide
    have l2 : isScaleArg "-to" = false := by decide
    have l3 : isScaleArg "-avoid_negative_ts" = false := by decide
    have l4 : isScaleArg "-b:v" = false := by decide
    have l5 : isScaleArg "-b:a" = false := by decide
    have hvf : ab ≠ "-vf" := by rcases hab with rfl | rfl | rfl <;> decide
    have hcc : ab ≠ "-c" := by rcases hab with rfl | rfl | rfl <;> decide
    rcases e with _ | e <;> constructor <;>
      simp [buildCmd, countScaleFilter, hasCopyFlag, hsf, l1, l2, l3, l4, l5, hvf, hcc]

/-- C8 witness: the two modes at concrete inputs — the 720p profile yields
exactly one scale filter and no copy flag. -/
theorem buildCmd_modes_witness :
    countScaleFilter (buildCmd "in.mp4" "00:00:00" (some "00:00:05")
      ["-vf", "scale=1280:720", "-b:v", "2M", "-b:a", "128k"] "out.mp4") = 1 ∧
    hasCopyFlag (buildCmd "in.mp4" "00:00:00" (some "00:00:05")
      ["-vf", "scale=1280:720", "-b:v", "2M", "-b:a", "128k"] "out.mp4") = false :=
  buildCmd_modes.2 "720p" _ "in.mp4" "00:00:00" (some "00:00:05") "out.mp4" (by decide)

/-! ### Claim C2: the planning phase -/

theorem mapMExcept_ok_mem {α β ε : Type} {f : α → Except ε β} :
    ∀ {ts : List α} {ps : List β}, mapMExcept f ts = .ok ps →
      ∀ p ∈ ps, ∃ t ∈ ts, f t = .ok p := by
  intro ts
  induction ts with
  | nil =>
    intro ps h p hp
    injection h with h
    subst h
    simp at hp
  | cons t ts ih =>
    intro ps h p hp
    unfold mapMExcept at h
    rcases hft : f t with e | b
    · rw [hft] at h
      exact absurd h (by simp)
    · rw [hft] at h
      rcases hrest : mapMExcept f ts with e | bs
      · rw [hrest] at h
        exact absurd h (by simp)
      · rw [hrest] at h
        injection h with h
        subst h
        rcases List.mem_cons.mp hp with rfl | hp2
        · exact ⟨t, List.mem_cons_self t ts, hft⟩
        · obtain ⟨t', ht', hf'⟩ := ih hrest p hp2
          exact ⟨t', List.mem_cons_of_mem _ ht', hf'⟩

theorem mapMExcept_isOk_of_forall {α β ε : Type} {f : α → Except ε β} :
    ∀ {ts : List α}, (∀ t ∈ ts, (f t).isOk = true) → ∃ ps, mapMExcept f ts = .ok ps := by
  intro ts
  induction ts with
  | nil => exact fun _ => ⟨[], rfl⟩
  | cons t ts ih =>
    intro h
    rcases hft : f t with e | b
    · have hh := h t (List.mem_cons_self t ts)
      rw [hft] at hh
      exact absurd hh (by simp [isOk_error])
    · obtain ⟨ps, hps⟩ := ih (fun x hx => h x (List.mem_cons_of_mem _ hx))
      refine ⟨b :: ps, ?_⟩
      unfold mapMExcept
      rw [hft, hps]

theorem mkSegments_getLast_none :
    ∀ (bs : List String), bs ≠ [] → ((mkSegments bs).getLast?).map Prod.snd = some none
  | [_], _ => rfl
  | b :: c :: rest, _ => by
    have ih := mkSegments_getLast_none (c :: rest) (by simp)
    show (((b, (c :: rest).head?) :: mkSegments (c :: rest)).getLast?).map Prod.snd = some none
    rcases hm : mkSegments (c :: rest) with _ | ⟨seg, segs⟩
    · exact absurd hm (by simp [mkSegments])
    · rw [hm] at ih
      rw [List.getLast?_cons_cons]
      exact ih

theorem boundariesOf_head (parsed : List String) :
    (boundariesOf parsed).head? = some "00:00:00" := by
  unfold boundariesOf
  simp only []
  split
  · rfl
  · next h => simpa using h

theorem boundariesOf_ne_nil (parsed : List String) : boundariesOf parsed ≠ [] := by
  intro h
  have hh := boundariesOf_head parsed
  rw [h] at hh
  simp at hh

theorem boundariesOf_sorted {parsed : List String}
    (hge : ∀ c ∈ parsed, strLe "00:00:00" c) :
    (boundariesOf parsed).Sorted strLe := by
  unfold boundariesOf
  simp only []
  have hs : (parsed.insertionSort strLe).Sorted strLe := List.sorted_insertionSort strLe parsed
  have hperm := List.perm_insertionSort strLe parsed
  split
  · rw [List.sorted_cons]
    exact ⟨fun b hb => hge b (hperm.subset hb), hs⟩
  · exact hs

theorem boundariesOf_sorted_strict {parsed : List String}
    (hge : ∀ c ∈ parsed, strLe "00:00:00" c) (hnd : parsed.Nodup) :
    (boundariesOf parsed).Sorted strLt := by
  unfold boundariesOf
  simp only []
  have hs : (parsed.insertionSort strLe).Sorted strLe := List.sorted_insertionSort strLe parsed
  have hperm := List.perm_insertionSort strLe parsed
  have hnd' : (parsed.insertionSort strLe).Nodup := hperm.symm.nodup hnd
  have hstrict := sorted_strLt_of_nodup hs hnd'
  split
  · next hne =>
    rw [List.sorted_cons]
    refine ⟨?_, hstrict⟩
    intro b hb
    have hle : strLe "00:00:00" b := hge b (hperm.subset hb)
    have hub : b ≠ "00:00:00" := by
      rintro rfl
      rcases hsl : parsed.insertionSort strLe with _ | ⟨h0, tl⟩
      · rw [hsl] at hb
        simp at hb
      · rw [hsl] at hb hne hs
        have hh0 : strLe "00:00:00" h0 :=
          hge h0 (hperm.subset (hsl ▸ List.mem_cons_self h0 tl))
        rcases List.mem_cons.mp hb with he | htl
        · exact hne (by rw [← he]; simp)
        · have h0le : strLe h0 "00:00:00" := (List.sorted_cons.mp hs).1 _ htl
          have heq : h0 = "00:00:00" := strLe_antisymm h0le hh0
          exact hne (by rw [heq]; simp)
    exact ⟨hle, fun he => hub he.symm⟩
  · exact hstrict

/-- C2 counterexample: the claim asserts duplicates collapse and the
boundary sequence is strictly ascending, but `cut_video`'s planning phase
keeps duplicate canonical timestamps: planning `["10", "10"]` yields the
non-strict sequence `["00:00:00", "00:00:10", "00:00:10"]`. -/
theorem C2_counterexample :
    planBoundaries ["10", "10"] = .ok ["00:00:00", "00:00:10", "00:00:10"] ∧
    ¬ List.Sorted strLt ["00:00:00", "00:00:10", "00:00:10"] := by
  decide

/-- C2 (amended): for every non-empty timestamp list that parses, with
every canonical form at least `"00:00:00"` (as holds for nonnegative
fields), the planning phase sorts the canonical strings ascending without
collapsing duplicates, prepends `"00:00:00"` when the smallest element
differs from it, and yields a non-decreasing boundary sequence — strictly
ascending when the canonical forms are pairwise distinct — whose first
segment starts at `"00:00:00"` and whose last segment has an absent end
time. -/
theorem planBoundaries_spec (ts parsed bs : List String)
    (hp : mapMExcept parse_timestamp ts = .ok parsed)
    (hb : planBoundaries ts = .ok bs)
    (hge : ∀ c ∈ parsed, strLe "00:00:00" c) :
    bs.head? = some "00:00:00" ∧
    bs.Sorted strLe ∧
    (parsed.Nodup → bs.Sorted strLt) ∧
    (bs.Perm parsed ∨ bs.Perm ("00:00:00" :: parsed)) ∧
    (mkSegments bs).head?.map Prod.fst = some "00:00:00" ∧
    (mkSegments bs).getLast?.map Prod.snd = some none := by
  unfold planBoundaries at hb
  split at hb
  · exact absurd hb (by simp)
  · rw [hp] at hb
    simp only [Except.map] at hb
    injection hb with hb
    subst hb
    refine ⟨boundariesOf_head parsed, boundariesOf_sorted hge,
      fun hnd => boundariesOf_sorted_strict hge hnd, ?_, ?_,
      mkSegments_getLast_none _ (boundariesOf_ne_nil parsed)⟩
    · unfold boundariesOf
      simp only []
      have hperm := List.perm_insertionSort strLe parsed
      split
      · exact Or.inr (hperm.cons "00:00:00")
      · exact Or.inl hperm
    · have h0 := boundariesOf_head parsed
      rcases hbs : boundariesOf parsed with _ | ⟨b, rest⟩
      · exact absurd hbs (boundariesOf_ne_nil parsed)
      · rw [hbs] at h0
        simp only [List.head?_cons, Option.some.injEq] at h0
        subst h0
        rfl

/-- C2 witness: the amended theorem at the concrete job `["5", "10"]`,
whose plan is `["00:00:00", "00:00:05", "00:00:10"]`. -/
theorem planBoundaries_spec_witness :
    (["00:00:00", "00:00:05", "00:00:10"] : List String).head? = some "00:00:00" ∧
    (["00:00:00", "00:00:05", "00:00:10"] : List String).Sorted strLe ∧
    ((["00:00:05", "00:00:10"] : List String).Nodup →
      (["00:00:00", "00:00:05", "00:00:10"] : List String).Sorted strLt) ∧
    ((["00:00:00", "00:00:05", "00:00:10"] : List String).Perm ["00:00:05", "00:00:10"] ∨
      (["00:00:00", "00:00:05", "00:00:10"] : List String).Perm
        ("00:00:00" :: ["00:00:05", "00:00:10"])) ∧
    (mkSegments ["00:00:00", "00:00:05", "00:00:10"]).head?.map Prod.fst = some "00:00:00" ∧
    (mkSegments ["00:00:00", "00:00:05", "00:00:10"]).getLast?.map Prod.snd = some none :=
  planBoundaries_spec ["5", "10"] ["00:00:05", "00:00:10"]
    ["00:00:00", "00:00:05", "00:00:10"] (by decide) (by decide) (by decide)

/-! ### Claim C9: collision-free output naming -/

theorem mkNumbered_inj (stem ext : String) {n m : Nat}
    (h : mkNumbered stem ext n = mkNumbered stem ext m) : n = m := by
  unfold mkNumbered at h
  have hd := congrArg String.data h
  simp only [String.data_append, List.append_assoc] at hd
  exact natRepr_inj
    (String.ext (List.append_cancel_right (List.append_cancel_left (List.append_cancel_left hd))))

theorem exists_free (fs : List String) (stem ext : String) (start : Nat) :
    ∃ k ≤ fs.length, fs.contains (mkNumbered stem ext (start + k)) = false := by
  by_contra hc
  push_neg at hc
  have hmem : ∀ k ≤ fs.length, mkNumbered stem ext (start + k) ∈ fs := by
    intro k hk
    have hne := hc k hk
    have hb : fs.contains (mkNumbered stem ext (start + k)) = true := by
      cases hcc : fs.contains (mkNumbered stem ext (start + k))
      · exact absurd hcc hne
      · rfl
    simpa [List.contains] using hb
  set l := (List.range (fs.length + 1)).map (fun k => mkNumbered stem ext (start + k)) with hl
  have hinj : Function.Injective (fun k => mkNumbered stem ext (start + k)) := by
    intro a b hab
    have := mkNumbered_inj stem ext hab
    omega
  have hnd : l.Nodup := (List.nodup_range _).map hinj
  have hsub : ∀ x ∈ l, x ∈ fs := by
    intro x hx
    rw [hl] at hx
    obtain ⟨k, hk, rfl⟩ := List.mem_map.mp hx
    exact hmem k (by have := List.mem_range.mp hk; omega)
  have hcard : l.toFinset.card = l.length := List.toFinset_card_of_nodup hnd
  have hlen : l.length = fs.length + 1 := by simp [hl]
  have hsub2 : l.toFinset ⊆ fs.toFinset := by
    intro x hx
    rw [List.mem_toFinset] at hx ⊢
    exact hsub x hx
  have hle1 := Finset.card_le_card hsub2
  have hle2 := List.toFinset_card_le fs
  omega

theorem safeLoop_spec (fs : List String) (stem ext : String) :
    ∀ fuel counter,
      (∃ k ≤ fuel, fs.contains (mkNumbered stem ext (counter + k)) = false) →
      ∃ n, counter ≤ n ∧ safeLoop fs stem ext fuel counter = mkNumbered stem ext n ∧
        fs.contains (mkNumbered stem ext n) = false ∧
        ∀ m, counter ≤ m → m < n → fs.contains (mkNumbered stem ext m) = true := by
  intro fuel
  induction fuel with
  | zero =>
    intro counter h
    obtain ⟨k, hk, hfree⟩ := h
    have hk0 : k = 0 := by omega
    subst hk0
    rw [Nat.add_zero] at hfree
    exact ⟨counter, le_rfl, rfl, hfree, fun m h1 h2 => by omega⟩
  | succ f ih =>
    intro counter h
    obtain ⟨k, hk, hfree⟩ := h
    by_cases hcon : fs.contains (mkNumbered stem ext counter) = true
    · have hk0 : k ≠ 0 := by
        rintro rfl
        rw [Nat.add_zero] at hfree
        rw [hfree] at hcon
        exact Bool.noConfusion hcon
      obtain ⟨n, h1, h2, h3, h4⟩ := ih (counter + 1)
        ⟨k - 1, by omega, by
          have heq : counter + 1 + (k - 1) = counter + k := by omega
          rw [heq]
          exact hfree⟩
      refine ⟨n, by omega, ?_, h3, ?_⟩
      · rw [show safeLoop fs stem ext (f + 1) counter =
            if fs.contains (mkNumbered stem ext counter) then
              safeLoop fs stem ext f (counter + 1)
            else mkNumbered stem ext counter from rfl]
        rw [if_pos hcon]
        exact h2
      · intro m hm1 hm2
        rcases Nat.eq_or_lt_of_le hm1 with rfl | hlt
        · exact hcon
        · exact h4 m (by omega) hm2
    · have hcf : fs.contains (mkNumbered stem ext counter) = false := by
        cases hcc : fs.contains (mkNumbered stem ext counter)
        · rfl
        · exact absurd hcc hcon
      refine ⟨counter, le_rfl, ?_, hcf, fun m h1 h2 => by omega⟩
      rw [show safeLoop fs stem ext (f + 1) counter =
          if fs.contains (mkNumbered stem ext counter) then
            safeLoop fs stem ext f (counter + 1)
          else mkNumbered stem ext counter from rfl]
      rw [if_neg hcon]

theorem create_safe_filename_of_contains {fs : List String} {cand : String}
    (hex : fs.contains cand = true) :
    ∃ n, 1 ≤ n ∧
      create_safe_filename fs cand = mkNumbered (splitext cand).1 (splitext cand).2 n ∧
      fs.contains (mkNumbered (splitext cand).1 (splitext cand).2 n) = false ∧
      ∀ m, 1 ≤ m → m < n →
        fs.contains (mkNumbered (splitext cand).1 (splitext cand).2 m) = true := by
  have heq : create_safe_filename fs cand =
      safeLoop fs (splitext cand).1 (splitext cand).2 (fs.length + 1) 1 := by
    unfold create_safe_filename
    rw [if_pos hex]
  obtain ⟨k, hk, hfree⟩ := exists_free fs (splitext cand).1 (splitext cand).2 1
  obtain ⟨n, h1, h2, h3, h4⟩ :=
    safeLoop_spec fs (splitext cand).1 (splitext cand).2 (fs.length + 1) 1 ⟨k, by omega, hfree⟩
  exact ⟨n, h1, heq.trans h2, h3, h4⟩

/-- C9: `_create_safe_filename` returns the candidate unchanged when it
does not exist (hence is idempotent there), and otherwise returns
`{stem}_{n}{ext}` for the smallest `n ≥ 1` that does not exist; after the
returned path is created, a repeated call yields a strictly larger
suffix. -/
theorem create_safe_filename_spec (fs : List String) (cand : String) :
    (fs.contains cand = false →
      create_safe_filename fs cand = cand ∧
      create_safe_filename fs (create_safe_filename fs cand) = create_safe_filename fs cand) ∧
    (fs.contains cand = true →
      ∃ n, 1 ≤ n ∧
        create_safe_filename fs cand = mkNumbered (splitext cand).1 (splitext cand).2 n ∧
        fs.contains (mkNumbered (splitext cand).1 (splitext cand).2 n) = false ∧
        (∀ m, 1 ≤ m → m < n →
          fs.contains (mkNumbered (splitext cand).1 (splitext cand).2 m) = true) ∧
        ∃ n2, n < n2 ∧
          create_safe_filename (fs ++ [mkNumbered (splitext cand).1 (splitext cand).2 n]) cand =
            mkNumbered (splitext cand).1 (splitext cand).2 n2) := by
  constructor
  · intro hnf
    have h1 : create_safe_filename fs cand = cand := by
      unfold create_safe_filename
      rw [if_neg (by intro hcon; rw [hnf] at hcon; exact Bool.noConfusion hcon)]
    refine ⟨h1, ?_⟩
    rw [h1]
    exact h1
  · intro hex
    obtain ⟨n, h1, h2, h3, h4⟩ := create_safe_filename_of_contains hex
    refine ⟨n, h1, h2, h3, h4, ?_⟩
    have hm0 : cand ∈ fs := by simpa [List.contains] using hex
    have hex2 : (fs ++ [mkNumbered (splitext cand).1 (splitext cand).2 n]).contains cand = true := by
      simp [List.contains, List.elem_iff]
      exact Or.inl hm0
    obtain ⟨n2, g1, g2, g3, g4⟩ := create_safe_filename_of_contains hex2
    refine ⟨n2, ?_, g2⟩
    rcases Nat.lt_trichotomy n2 n with hlt | heqq | hgt
    · exfalso
      have hin : fs.contains (mkNumbered (splitext cand).1 (splitext cand).2 n2) = true :=
        h4 n2 g1 hlt
      have hmem : mkNumbered (splitext cand).1 (splitext cand).2 n2 ∈ fs := by
        simpa [List.contains] using hin
      have htrue :
          (fs ++ [mkNumbered (splitext cand).1 (splitext cand).2 n]).contains
            (mkNumbered (splitext cand).1 (splitext cand).2 n2) = true := by
        simp [List.contains, List.elem_iff]
        exact Or.inl hmem
      rw [htrue] at g3
      exact Bool.noConfusion g3
    · exfalso
      subst heqq
      have htrue :
          (fs ++ [mkNumbered (splitext cand).1 (splitext cand).2 n2]).contains
            (mkNumbered (splitext cand).1 (splitext cand).2 n2) = true := by
        simp [List.contains, List.elem_iff]
      rw [htrue] at g3
      exact Bool.noConfusion g3
    · exact hgt

/-- C9 witness: with `out.mp4` already existing, the next name is
`out_1.mp4`, and after creating it a further call yields a strictly larger
suffix. -/
theorem create_safe_filename_spec_witness :
    (["out.mp4"] : List String).contains "out.mp4" = true ∧
    (∃ n, 1 ≤ n ∧
      create_safe_filename ["out.mp4"] "out.mp4" =
        mkNumbered (splitext "out.mp4").1 (splitext "out.mp4").2 n ∧
      (["out.mp4"] : List String).contains
        (mkNumbered (splitext "out.mp4").1 (splitext "out.mp4").2 n) = false ∧
      (∀ m, 1 ≤ m → m < n →
        (["out.mp4"] : List String).contains
          (mkNumbered (splitext "out.mp4").1 (splitext "out.mp4").2 m) = true) ∧
      ∃ n2, n < n2 ∧
        create_safe_filename
            (["out.mp4"] ++ [mkNumbered (splitext "out.mp4").1 (splitext "out.mp4").2 n])
            "out.mp4" =
          mkNumbered (splitext "out.mp4").1 (splitext "out.mp4").2 n2) :=
  ⟨by decide, (create_safe_filename_spec ["out.mp4"] "out.mp4").2 (by decide)⟩

/-! ### Claim C7: partial-failure semantics of the segment loop -/

theorem segLoop_spec (w : World) (iv outPre : String) (odir : Option String)
    (sargs : List String) (ext : String) :
    ∀ (bs : List String) (i : Nat) (fs : List String),
      (segLoop w iv outPre odir sargs ext i fs bs).1.length = bs.length ∧
      (segLoop w iv outPre odir sargs ext i fs bs).2.length =
        (segLoop w iv outPre odir sargs ext i fs bs).1.countP
          (fun c => decide (w.run c = RunResult.ok)) := by
  intro bs
  induction bs with
  | nil => intro i fs; exact ⟨rfl, rfl⟩
  | cons b rest ih =>
    intro i fs
    simp only [segLoop]
    cases hrun : w.run (buildCmd iv b rest.head? sargs (segOut fs outPre odir ext i)) with
    | ok =>
      obtain ⟨ih1, ih2⟩ := ih (i + 1) (fs ++ [segOut fs outPre odir ext i])
      constructor
      · simp [ih1]
      · simp [List.countP_cons, hrun, ih2]
    | processError e =>
      obtain ⟨ih1, ih2⟩ := ih (i + 1) fs
      constructor
      · simp [ih1]
      · simp [List.countP_cons, hrun, ih2]
    | otherError e =>
      obtain ⟨ih1, ih2⟩ := ih (i + 1) fs
      constructor
      · simp [ih1]
      · simp [List.countP_cons, hrun, ih2]

/-- C7: once planning and the preflight succeed, `cut_video` attempts every
planned segment and never aborts on a segment failure: the trace of
executed transcoder commands has exactly one entry per planned boundary
regardless of each command's outcome, the Python result is a normal return
(no exception), and the returned `output_files` list has exactly one entry
per successful command — so a one-segment job whose command fails
completes with 0 successes out of 1 planned. -/
theorem cut_video_attempts (w : World) (iv : String) (fs : List String)
    (ts parsed : List String) (outPre : String) (scale : Option String)
    (odir : Option String) (sargs : List String)
    (hne : ts ≠ [])
    (hp : mapMExcept parse_timestamp ts = .ok parsed)
    (hw : w.canWrite (pjoin (odir.getD ".") "temp_permission_test.tmp") = true)
    (hs : resolveScaleArgs scale = .ok sargs) :
    ∃ outs, (cut_video w iv fs ts outPre scale odir).1 = .ok outs ∧
      (cut_video w iv fs ts outPre scale odir).2.length = (boundariesOf parsed).length ∧
      outs.length = (cut_video w iv fs ts outPre scale odir).2.countP
        (fun c => decide (w.run c = RunResult.ok)) := by
  have hval : cut_video w iv fs ts outPre scale odir =
      (.ok (segLoop w iv outPre odir sargs (⟨(pathSuffix iv).data.drop 1⟩ : String) 0 fs
            (boundariesOf parsed)).2,
       (segLoop w iv outPre odir sargs (⟨(pathSuffix iv).data.drop 1⟩ : String) 0 fs
            (boundariesOf parsed)).1) := by
    unfold cut_video
    rw [if_neg (by simp [List.isEmpty_iff, hne])]
    simp only [hp]
    rw [if_neg (by simp [hw])]
    simp only [hs]
  obtain ⟨h1, h2⟩ := segLoop_spec w iv outPre odir sargs
    (⟨(pathSuffix iv).data.drop 1⟩ : String) (boundariesOf parsed) 0 fs
  rw [hval]
  exact ⟨_, rfl, h1, h2⟩

/-- C7 witness: a one-timestamp job against a transcoder that always
fails — one command attempted, zero successes, normal completion. -/
theorem cut_video_attempts_witness :
    ∃ outs,
      (cut_video ⟨fun _ => true, fun _ => RunResult.processError "fail"⟩
        "in.mp4" [] ["0"] "output" none none).1 = .ok outs ∧
      (cut_video ⟨fun _ => true, fun _ => RunResult.processError "fail"⟩
        "in.mp4" [] ["0"] "output" none none).2.length = (boundariesOf ["00:00:00"]).length ∧
      outs.length = (cut_video ⟨fun _ => true, fun _ => RunResult.processError "fail"⟩
        "in.mp4" [] ["0"] "output" none none).2.countP
          (fun c => decide ((⟨fun _ => true, fun _ => RunResult.processError "fail"⟩ : World).run c
            = RunResult.ok)) :=
  cut_video_attempts ⟨fun _ => true, fun _ => RunResult.processError "fail"⟩
    "in.mp4" [] ["0"] ["00:00:00"] "output" none none []
    (by simp) (by decide) (by decide) (by decide)

/-! ### Claim C10: unconditional write-permission preflight -/

/-- C10: the preflight probe is performed even when no output directory is
supplied — the probe path is `temp_permission_test.tmp` joined onto `"."`
(the current directory); when that write is denied, `cut_video` raises
`PermissionError` and the executed-command trace is empty, so no segment
is attempted and no transcoder command is built or executed. -/
theorem cut_video_preflight (w : World) (iv : String) (fs ts : List String)
    (outPre : String) (scale : Option String)
    (hne : ts ≠ [])
    (hp : ∃ parsed, mapMExcept parse_timestamp ts = .ok parsed)
    (hw : w.canWrite "./temp_permission_test.tmp" = false) :
    pjoin "." "temp_permission_test.tmp" = "./temp_permission_test.tmp" ∧
    cut_video w iv fs ts outPre scale none =
      (.error (.permissionError
        "No write permission in directory \x27.\x27. Try running as administrator or choosing a different directory."),
       []) := by
  refine ⟨by decide, ?_⟩
  obtain ⟨parsed, hpp⟩ := hp
  have hpj : pjoin "." "temp_permission_test.tmp" = "./temp_permission_test.tmp" := by decide
  unfold cut_video
  rw [if_neg (by simp [List.isEmpty_iff, hne])]
  simp only [hpp, Option.getD_none, hpj]
  rw [if_pos (by rw [hw])]
  decide

/-- C10 witness: a concrete job with an unwritable current directory. -/
theorem cut_video_preflight_witness :
    pjoin "." "temp_permission_test.tmp" = "./temp_permission_test.tmp" ∧
    cut_video ⟨fun p => ¬ p = "./temp_permission_test.tmp", fun _ => RunResult.ok⟩
        "in.mp4" [] ["5"] "output" none none =
      (.error (.permissionError
        "No write permission in directory \x27.\x27. Try running as administrator or choosing a different directory."),
       []) :=
  cut_video_preflight ⟨fun p => ¬ p = "./temp_permission_test.tmp", fun _ => RunResult.ok⟩
    "in.mp4" [] ["5"] "output" none (by simp) ⟨["00:00:05"], by decide⟩ (by decide)
